import Mathlib

/-!
Shallow embedding of the go-queryparams package (queryparams.go): a codec
between a flat struct-like record and a query-string-style multi-map
(string keys, ordered list of string values per key).

Modelling conventions:
  - Machine integers are Nat/Int with explicit range side conditions
    carrying the bit width that Go's strconv functions receive.
  - Field names and tag strings are modelled as ASCII strings, matching
    the ASCII behaviour of strings.ToLower on Go identifiers.
  - time.Time is modelled by its broken-down components plus a zone
    offset in minutes; the RFC 3339 formatter and the strict RFC 3339
    parser (time.Format / time.Parse with the time.RFC3339 layout) are
    embedded directly.
  - url.Values is modelled as a total function from keys to ordered
    value lists, the empty list standing for an absent key (url.Values
    built through Add/Set never stores an empty slice).
  - Floating-point fields are outside the embedding; the record model
    covers string, signed/unsigned integer, boolean, timestamp and
    slice fields, plus an explicit unsupported-kind constructor for the
    error paths.
  - reflect visibility (CanInterface/CanSet) is carried as an explicit
    exported flag on each field.
-/

namespace QueryParams

/-! ## Decimal digits: strconv-style formatting and parsing -/

def digitChar (n : Nat) : Char := Char.ofNat (48 + n)

/-- Fuel-driven digit emitter mirroring strconv's base-10 formatting loop;
with fuel at least the value being printed it emits the usual
most-significant-first decimal digits. -/
def digitsAux : Nat → Nat → List Char → List Char
  | fuel, n, acc =>
    if n < 10 then digitChar n :: acc
    else
      match fuel with
      | 0 => digitChar (n % 10) :: acc
      | fuel' + 1 => digitsAux fuel' (n / 10) (digitChar (n % 10) :: acc)

def digits (n : Nat) : List Char := digitsAux n n []

def digitVal (c : Char) : Option Nat :=
  if 48 ≤ c.toNat ∧ c.toNat ≤ 57 then some (c.toNat - 48) else none

/-- Accumulating base-10 digit scanner, the core of strconv.ParseUint. -/
def parseDigitsAux : List Char → Nat → Option Nat
  | [], acc => some acc
  | c :: cs, acc =>
    match digitVal c with
    | some d => parseDigitsAux cs (acc * 10 + d)
    | none => none

def parseDigits (cs : List Char) : Option Nat :=
  if cs.isEmpty then none else parseDigitsAux cs 0

/-! ## Errors (modelling the error values the Go code constructs) -/

inductive GoError where
  | unsupportedType (kindName : String)
  | unsupportedKind (kindName : String)
  | numError (fn : String) (num : String) (msg : String)
  | timeParseError (value : String)
  | fieldError (key : String) (inner : GoError)
deriving DecidableEq

instance {ε α : Type} [DecidableEq ε] [DecidableEq α] : DecidableEq (Except ε α) := fun x y =>
  match x, y with
  | .ok a, .ok b =>
    if h : a = b then isTrue (by rw [h]) else isFalse (fun hc => h (Except.ok.inj hc))
  | .error a, .error b =>
    if h : a = b then isTrue (by rw [h]) else isFalse (fun hc => h (Except.error.inj hc))
  | .ok _, .error _ => isFalse (fun hc => Except.noConfusion hc)
  | .error _, .ok _ => isFalse (fun hc => Except.noConfusion hc)

def errSyntaxMsg : String := "invalid syntax"

def errRangeMsg : String := "value out of range"

/-! ## strconv format/parse for the kinds the codec dispatches on -/

def formatUint (n : Nat) : String := String.mk (digits n)

def formatInt (v : Int) : String :=
  if v < 0 then String.mk ('-' :: digits v.natAbs) else String.mk (digits v.toNat)

/-- Embedding of strconv.ParseUint(s, 10, bits): digits only (no sign),
syntax error on empty or non-digit input, range error above 2^bits - 1. -/
def parseUint (s : String) (bits : Nat) : Except GoError Nat :=
  match parseDigits s.data with
  | none => .error (.numError "ParseUint" s errSyntaxMsg)
  | some n =>
    if n ≥ 2 ^ bits then .error (.numError "ParseUint" s errRangeMsg) else .ok n

/-- Embedding of strconv.ParseInt(s, 10, bits): optional single sign, then
digits; range checked against the signed bounds for the bit width. -/
def parseInt (s : String) (bits : Nat) : Except GoError Int :=
  match s.data with
  | [] => .error (.numError "ParseInt" s errSyntaxMsg)
  | c :: cs =>
    if c = '-' then
      match parseDigits cs with
      | none => .error (.numError "ParseInt" s errSyntaxMsg)
      | some n =>
        if n > 2 ^ (bits - 1) then .error (.numError "ParseInt" s errRangeMsg)
        else .ok (-(n : Int))
    else
      match parseDigits (if c = '+' then cs else c :: cs) with
      | none => .error (.numError "ParseInt" s errSyntaxMsg)
      | some n =>
        if n ≥ 2 ^ (bits - 1) then .error (.numError "ParseInt" s errRangeMsg)
        else .ok (n : Int)

def formatBool (b : Bool) : String := if b then "true" else "false"

/-- Embedding of strconv.ParseBool with its exact accepted spellings. -/
def parseBool (s : String) : Except GoError Bool :=
  if s = "1" ∨ s = "t" ∨ s = "T" ∨ s = "true" ∨ s = "TRUE" ∨ s = "True" then .ok true
  else if s = "0" ∨ s = "f" ∨ s = "F" ∨ s = "false" ∨ s = "FALSE" ∨ s = "False" then .ok false
  else .error (.numError "ParseBool" s errSyntaxMsg)

/-! ## time.Time model and the RFC 3339 layout -/

structure GoTime where
  year : Nat
  month : Nat
  day : Nat
  hour : Nat
  minute : Nat
  second : Nat
  nanos : Nat
  offsetMin : Int
deriving DecidableEq

def zeroGoTime : GoTime := ⟨1, 1, 1, 0, 0, 0, 0, 0⟩

def isLeap (y : Nat) : Bool := y % 4 == 0 && (y % 100 != 0 || y % 400 == 0)

def daysIn (m y : Nat) : Nat :=
  if m = 2 then (if isLeap y then 29 else 28)
  else if m = 4 ∨ m = 6 ∨ m = 9 ∨ m = 11 then 30
  else 31

/-- Components a Go time.Time always satisfies once restricted to the
four-digit-year range the RFC 3339 layout prints verbatim. -/
def GoTime.wf (t : GoTime) : Prop :=
  t.year ≤ 9999 ∧ 1 ≤ t.month ∧ t.month ≤ 12 ∧ 1 ≤ t.day ∧
  t.day ≤ daysIn t.month t.year ∧ t.hour ≤ 23 ∧ t.minute ≤ 59 ∧
  t.second ≤ 59 ∧ t.nanos ≤ 999999999 ∧ t.offsetMin.natAbs ≤ 1439

instance (t : GoTime) : Decidable t.wf := by
  unfold GoTime.wf; infer_instance

def padLeft (w : Nat) (cs : List Char) : List Char :=
  List.replicate (w - cs.length) '0' ++ cs

def pad2 (n : Nat) : List Char := padLeft 2 (digits n)

def pad4 (n : Nat) : List Char := padLeft 4 (digits n)

/-- Zone suffix of the "Z07:00" layout element: "Z" at offset zero,
otherwise a sign, two hour digits, a colon and two minute digits. -/
def offsetChars (off : Int) : List Char :=
  if off = 0 then ['Z']
  else
    (if off < 0 then '-' else '+') ::
      (pad2 (off.natAbs / 60) ++ ':' :: pad2 (off.natAbs % 60))

/-- Embedding of t.Format(time.RFC3339): the layout
"2006-01-02T15:04:05Z07:00" has no fractional-second element, so the
nanosecond component is not printed. -/
def rfc3339Chars (t : GoTime) : List Char :=
  pad4 t.year ++ '-' :: pad2 t.month ++ '-' :: pad2 t.day ++
    'T' :: pad2 t.hour ++ ':' :: pad2 t.minute ++ ':' :: pad2 t.second ++
    offsetChars t.offsetMin

def goTimeFormatRFC3339 (t : GoTime) : String := String.mk (rfc3339Chars t)

/-- Fixed-width two-digit field of the strict RFC 3339 parser: both
characters must be digits and the value must lie within the range. -/
def parse2 (a b : Char) (lo hi : Nat) : Option Nat :=
  match digitVal a, digitVal b with
  | some x, some y =>
    let v := 10 * x + y
    if lo ≤ v ∧ v ≤ hi then some v else none
  | _, _ => none

def parse4 (a b c d : Char) (lo hi : Nat) : Option Nat :=
  match digitVal a, digitVal b, digitVal c, digitVal d with
  | some x, some y, some z, some w =>
    let v := 1000 * x + 100 * y + 10 * z + w
    if lo ≤ v ∧ v ≤ hi then some v else none
  | _, _, _, _ => none

def isDigitChar (c : Char) : Bool := 48 ≤ c.toNat && c.toNat ≤ 57

/-- Nanoseconds from the digit run after the decimal point, truncated to
nine digits and scaled, as in time's parseNanoseconds. -/
def nanosOfDigits (ds : List Char) : Nat :=
  let d9 := ds.take 9
  (parseDigitsAux d9 0).getD 0 * 10 ^ (9 - d9.length)

/-- Optional fractional-second field the RFC 3339 parser accepts even
though the layout does not mention one: a point followed by at least one
digit; all following digits are consumed. -/
def splitFraction (cs : List Char) : Nat × List Char :=
  match cs with
  | '.' :: d :: ds =>
    if isDigitChar d then
      (nanosOfDigits (d :: ds.takeWhile isDigitChar), ds.dropWhile isDigitChar)
    else (0, cs)
  | _ => (0, cs)

/-- Zone field of the strict parser: exactly "Z", or a six-character
signed offset with hours up to 23 and minutes up to 59. -/
def parseZone (cs : List Char) : Option Int :=
  match cs with
  | ['Z'] => some 0
  | [sg, h1, h2, cl, m1, m2] =>
    if (sg = '+' ∨ sg = '-') ∧ cl = ':' then
      match parse2 h1 h2 0 23, parse2 m1 m2 0 59 with
      | some hh, some mm =>
        some (if sg = '-' then -(((hh * 60 + mm : Nat) : Int)) else ((hh * 60 + mm : Nat) : Int))
      | _, _ => none
    else none
  | _ => none

/-- Embedding of time.Parse(time.RFC3339, s): the strict fast-path parser
(parseRFC3339 in the time package), which checks the fixed separators,
the component ranges including days-in-month, an optional fractional
second, and the zone suffix. -/
def goTimeParseRFC3339 (s : String) : Option GoTime :=
  match s.data with
  | y1 :: y2 :: y3 :: y4 :: a1 :: o1 :: o2 :: a2 :: d1 :: d2 :: a3 ::
      h1 :: h2 :: a4 :: mi1 :: mi2 :: a5 :: se1 :: se2 :: rest =>
    if a1 = '-' ∧ a2 = '-' ∧ a3 = 'T' ∧ a4 = ':' ∧ a5 = ':' then
      (parse4 y1 y2 y3 y4 0 9999).bind fun y =>
      (parse2 o1 o2 1 12).bind fun mo =>
      (parse2 d1 d2 1 (daysIn mo y)).bind fun dy =>
      (parse2 h1 h2 0 23).bind fun hr =>
      (parse2 mi1 mi2 0 59).bind fun mi =>
      (parse2 se1 se2 0 59).bind fun se =>
      (parseZone (splitFraction rest).2).map fun off =>
        ⟨y, mo, dy, hr, mi, se, (splitFraction rest).1, off⟩
    else none
  | _ => none

/-! ## Record model: kinds, scalar values, fields -/

/-- Declared scalar kinds the codec dispatches on. Integer kinds carry the
bit width reflect's Type.Bits() reports; the unsupported constructor
stands for any other reflect kind (map, struct, ...) and carries the
string v.Kind() prints. Floating-point kinds are outside the embedding. -/
inductive Kind where
  | str
  | int (width : Nat)
  | uint (width : Nat)
  | bool
  | time
  | unsupported (kindName : String)
deriving DecidableEq

/-- A scalar field value. The other constructor is a value of an
unsupported kind; it records only whether reflect's IsZero holds for it. -/
inductive Scalar where
  | str (s : String)
  | int (width : Nat) (v : Int)
  | uint (width : Nat) (v : Nat)
  | bool (b : Bool)
  | time (t : GoTime)
  | other (kindName : String) (zero : Bool)
deriving DecidableEq

inductive FieldType where
  | scalar (k : Kind)
  | slice (k : Kind)
deriving DecidableEq

inductive Value where
  | scalar (sc : Scalar)
  | list (elems : List Scalar)
deriving DecidableEq

/-- Static description of one struct field: declared name, the string of
its query tag (the empty string doubling for an absent tag, exactly as
StructTag.Get reports it), its type, and whether reflect can access it
(CanInterface on the encode path, CanSet on the decode path). -/
structure Field where
  name : String
  tag : String
  ftype : FieldType
  exported : Bool
deriving DecidableEq

/-- Embedding of reflect's Value.IsZero for the kinds the codec meets.
Nil and empty slices are identified and both count as zero. -/
def Scalar.isZero : Scalar → Bool
  | .str s => s == ""
  | .int _ v => v == 0
  | .uint _ v => v == 0
  | .bool b => b == false
  | .time t => t == zeroGoTime
  | .other _ z => z

def Value.isZero : Value → Bool
  | .scalar sc => sc.isZero
  | .list es => es.isEmpty

/-- Embedding of strings.ToLower restricted to ASCII field names. -/
def stringsToLower (s : String) : String := String.mk (s.data.map Char.toLower)

/-- Embedding of strings.ToLower(name[:1]) + name[1:], the decode-side
default key: only the first character is lower-cased. -/
def lowerFirst (s : String) : String :=
  match s.data with
  | [] => ""
  | c :: cs => String.mk (c.toLower :: cs)

/-! ## parseTag (queryparams.go, lines 150-165) -/

/-- Comma splitter with the semantics of strings.Split(s, ","): always at
least one group, an empty group between adjacent commas. -/
def splitComma : List Char → List (List Char)
  | [] => [[]]
  | c :: cs =>
    if c = ',' then [] :: splitComma cs
    else
      match splitComma cs with
      | g :: gs => (c :: g) :: gs
      | [] => [[c]]

/-- Embedding of parseTag: the name is everything before the first comma;
omitzero is set when any later comma-separated part equals "omitzero". -/
def parseTag (tag : String) : String × Bool :=
  if tag = "" then ("", false)
  else
    let parts := (splitComma tag.data).map String.mk
    (parts.headD "", (parts.drop 1).any (· == "omitzero"))

/-! ## Scalar codec (toString / setFromString) -/

/-- Embedding of toString (lines 167-196). None of the modelled record
types implements the Marshaler capability, so the dispatch is directly
on the kind; a value of an unsupported kind yields the
"unsupported type" error. -/
def toString : Scalar → Except GoError String
  | .str s => .ok s
  | .int _ v => .ok (formatInt v)
  | .uint _ v => .ok (formatUint v)
  | .bool b => .ok (formatBool b)
  | .time t => .ok (goTimeFormatRFC3339 t)
  | .other kindName _ => .error (.unsupportedType kindName)

/-- Embedding of setFromString (lines 230-285) on a destination of the
given kind: the parsed scalar replaces the destination wholesale. -/
def setFromString (k : Kind) (s : String) : Except GoError Scalar :=
  match k with
  | .str => .ok (.str s)
  | .int w =>
    match parseInt s w with
    | .ok v => .ok (.int w v)
    | .error e => .error e
  | .uint w =>
    match parseUint s w with
    | .ok v => .ok (.uint w v)
    | .error e => .error e
  | .bool =>
    match parseBool s with
    | .ok b => .ok (.bool b)
    | .error e => .error e
  | .time =>
    match goTimeParseRFC3339 s with
    | some t => .ok (.time t)
    | none => .error (.timeParseError s)
  | .unsupported kindName => .error (.unsupportedKind kindName)

/-! ## Multi-map (url.Values) -/

/-- url.Values as a total function from key to its ordered value list;
the empty list stands for an absent key. -/
def Values : Type := String → List String

def Values.empty : Values := fun _ => []

/-- url.Values.Add: append one value to the key's list. -/
def Values.add (uv : Values) (key value : String) : Values :=
  fun k => if k = key then uv key ++ [value] else uv k

/-- url.Values.Set: replace the key's list by the single value. -/
def Values.set (uv : Values) (key value : String) : Values :=
  fun k => if k = key then [value] else uv k

/-! ## Marshal (lines 32-86) -/

/-- Element loop of Marshal's slice branch (lines 66-74): convert each
element in order, adding entries under the key, aborting on the first
conversion failure with the entries added so far kept. -/
def addAll (name : String) : List Scalar → Values → Values × Option GoError
  | [], uv => (uv, none)
  | e :: es, uv =>
    match toString e with
    | .ok s => addAll name es (uv.add name s)
    | .error err => (uv, some err)

/-- Body of Marshal's per-field loop (lines 45-83): tag resolution, the
"-" skip, the lower-cased default name, the accessibility skip, the
omitzero skip, then the slice/scalar conversion and insertion. -/
def marshalField (f : Field) (val : Value) (uv : Values) : Values × Option GoError :=
  let p := parseTag f.tag
  if p.1 = "-" then (uv, none)
  else
    let name := if p.1 = "" then stringsToLower f.name else p.1
    if !f.exported then (uv, none)
    else if p.2 && val.isZero then (uv, none)
    else
      match val with
      | .list es => addAll name es uv
      | .scalar sc =>
        match toString sc with
        | .ok s => (uv.set name s, none)
        | .error err => (uv, some err)

def marshalLoop : List (Field × Value) → Values → Values × Option GoError
  | [], uv => (uv, none)
  | (f, v) :: rest, uv =>
    match marshalField f v uv with
    | (uv', some e) => (uv', some e)
    | (uv', none) => marshalLoop rest uv'

/-- Embedding of Marshal on a struct value presented as its ordered field
list: returns the built url.Values together with the error, the map
holding whatever was accumulated before a failure. -/
def Marshal (flds : List (Field × Value)) : Values × Option GoError :=
  marshalLoop flds Values.empty

/-! ## Unmarshal (lines 89-148) -/

/-- Element loop of Unmarshal's slice branch (lines 124-139): parse each
string independently in input order into a fresh element list. -/
def decodeSlice (k : Kind) : List String → Except GoError (List Scalar)
  | [] => .ok []
  | s :: ss =>
    match setFromString k s with
    | .error e => .error e
    | .ok sc =>
      match decodeSlice k ss with
      | .error e => .error e
      | .ok scs => .ok (sc :: scs)

/-- Body of Unmarshal's per-field loop (lines 101-145): tag resolution,
the "-" skip, the first-character-lower-cased default name, the
absent-or-empty-key skip, the settability skip, then the slice branch
(replacing the whole field on success, leaving it untouched on error)
or the single-value branch decoding only the first value. Errors are
wrapped with the resolved key name. -/
def unmarshalField (values : Values) (f : Field) (val : Value) : Value × Option GoError :=
  let p := parseTag f.tag
  if p.1 = "-" then (val, none)
  else
    let name := if p.1 = "" then lowerFirst f.name else p.1
    match values name with
    | [] => (val, none)
    | s :: rest =>
      if !f.exported then (val, none)
      else
        match f.ftype with
        | .slice k =>
          match decodeSlice k (s :: rest) with
          | .ok elems => (.list elems, none)
          | .error e => (val, some (.fieldError name e))
        | .scalar k =>
          match setFromString k s with
          | .ok sc => (.scalar sc, none)
          | .error e => (val, some (.fieldError name e))

def unmarshalLoop (values : Values) : List (Field × Value) → List (Field × Value) × Option GoError
  | [] => ([], none)
  | (f, val) :: rest =>
    match unmarshalField values f val with
    | (v', some e) => ((f, v') :: rest, some e)
    | (v', none) =>
      let r := unmarshalLoop values rest
      ((f, v') :: r.1, r.2)

/-- Embedding of Unmarshal on a destination struct presented as its
ordered field list with current values: returns the updated field list
and the error; fields after a failing one keep their prior values. -/
def Unmarshal (values : Values) (flds : List (Field × Value)) :
    List (Field × Value) × Option GoError :=
  unmarshalLoop values flds

/-! ## Lemmas on decimal digits -/

theorem digitsAux_lt (fuel n : Nat) (acc : List Char) (h : n < 10) :
    digitsAux fuel n acc = digitChar n :: acc := by
  cases fuel <;> simp [digitsAux, h]

theorem digitsAux_succ (f n : Nat) (acc : List Char) (h : ¬ n < 10) :
    digitsAux (f + 1) n acc = digitsAux f (n / 10) (digitChar (n % 10) :: acc) := by
  simp [digitsAux, h]

theorem digitsAux_acc (fuel : Nat) : ∀ n acc,
    digitsAux fuel n acc = digitsAux fuel n [] ++ acc := by
  induction fuel with
  | zero =>
    intro n acc
    by_cases h : n < 10 <;> simp [digitsAux, h]
  | succ f ih =>
    intro n acc
    by_cases h : n < 10
    · rw [digitsAux_lt _ _ _ h, digitsAux_lt _ _ _ h]
      simp
    · rw [digitsAux_succ _ _ _ h, digitsAux_succ _ _ _ h]
      rw [ih (n / 10) (digitChar (n % 10) :: acc), ih (n / 10) [digitChar (n % 10)]]
      simp

theorem digitsAux_fuel : ∀ n : Nat, ∀ fuel fuel' acc, n ≤ fuel → n ≤ fuel' →
    digitsAux fuel n acc = digitsAux fuel' n acc := by
  intro n
  induction n using Nat.strong_induction_on with
  | _ n ih =>
    intro fuel fuel' acc h1 h2
    by_cases h10 : n < 10
    · rw [digitsAux_lt _ _ _ h10, digitsAux_lt _ _ _ h10]
    · obtain ⟨f, rfl⟩ : ∃ f, fuel = f + 1 := ⟨fuel - 1, by omega⟩
      obtain ⟨f', rfl⟩ : ∃ f', fuel' = f' + 1 := ⟨fuel' - 1, by omega⟩
      rw [digitsAux_succ _ _ _ h10, digitsAux_succ _ _ _ h10]
      exact ih (n / 10) (by omega) f f' _ (by omega) (by omega)

theorem digits_lt (n : Nat) (h : n < 10) : digits n = [digitChar n] := by
  rw [digits, digitsAux_lt _ _ _ h]

theorem digits_ge (n : Nat) (h : 10 ≤ n) :
    digits n = digits (n / 10) ++ [digitChar (n % 10)] := by
  obtain ⟨f, rfl⟩ : ∃ f, n = f + 1 := ⟨n - 1, by omega⟩
  rw [digits, digitsAux_succ _ _ _ (by omega), digitsAux_acc]
  congr 1
  exact digitsAux_fuel ((f + 1) / 10) f ((f + 1) / 10) [] (by omega) (le_refl _)

theorem digits_ne_nil (n : Nat) : digits n ≠ [] := by
  by_cases h : n < 10
  · rw [digits_lt n h]; simp
  · rw [digits_ge n (by omega)]; simp

theorem digits_mem (n : Nat) : ∀ c ∈ digits n, ∃ d, d < 10 ∧ c = digitChar d := by
  induction n using Nat.strong_induction_on with
  | _ n ih =>
    intro c hc
    by_cases h : n < 10
    · rw [digits_lt n h] at hc
      simp at hc
      exact ⟨n, h, hc⟩
    · rw [digits_ge n (by omega)] at hc
      rcases List.mem_append.mp hc with h1 | h2
      · exact ih (n / 10) (by omega) c h1
      · simp at h2
        exact ⟨n % 10, by omega, h2⟩

theorem digitVal_digitChar : ∀ d, d < 10 → digitVal (digitChar d) = some d := by decide

theorem parseDigitsAux_append (xs : List Char) : ∀ ys acc,
    parseDigitsAux (xs ++ ys) acc =
      match parseDigitsAux xs acc with
      | some a => parseDigitsAux ys a
      | none => none := by
  induction xs with
  | nil => intro ys acc; rfl
  | cons c cs ih =>
    intro ys acc
    simp only [List.cons_append, parseDigitsAux]
    cases digitVal c with
    | none => rfl
    | some d => exact ih ys (acc * 10 + d)

theorem parseDigitsAux_digits : ∀ n acc,
    parseDigitsAux (digits n) acc = some (acc * 10 ^ (digits n).length + n) := by
  intro n
  induction n using Nat.strong_induction_on with
  | _ n ih =>
    intro acc
    by_cases h : n < 10
    · rw [digits_lt n h]
      simp [parseDigitsAux, digitVal_digitChar n h]
    · rw [digits_ge n (by omega)]
      rw [parseDigitsAux_append]
      rw [ih (n / 10) (by omega) acc]
      simp only [parseDigitsAux, digitVal_digitChar (n % 10) (by omega)]
      rw [List.length_append, List.length_singleton]
      congr 1
      have h10 : 10 * (n / 10) + n % 10 = n := by omega
      ring_nf
      omega

theorem parseDigits_digits (n : Nat) : parseDigits (digits n) = some n := by
  rw [parseDigits, if_neg (by simp [digits_ne_nil n])]
  rw [parseDigitsAux_digits n 0]
  simp

theorem digitChar_ne_sign (d : Nat) (h : d < 10) : digitChar d ≠ '+' ∧ digitChar d ≠ '-' := by
  revert d
  decide

/-! ## Round trips of the numeric and boolean codecs -/

theorem parseUint_formatUint (n bits : Nat) (h : n < 2 ^ bits) :
    parseUint (formatUint n) bits = .ok n := by
  show parseUint (String.mk (digits n)) bits = .ok n
  unfold parseUint
  have hd : (String.mk (digits n)).data = digits n := rfl
  rw [hd, parseDigits_digits n]
  simp [h, Nat.not_le.mpr h]

theorem parseInt_mk_neg (cs : List Char) (bits n : Nat) (hp : parseDigits cs = some n) :
    parseInt (String.mk ('-' :: cs)) bits =
      if n > 2 ^ (bits - 1) then
        Except.error (.numError "ParseInt" (String.mk ('-' :: cs)) errRangeMsg)
      else Except.ok (-(n : Int)) := by
  have h0 : parseInt (String.mk ('-' :: cs)) bits =
      match parseDigits cs with
      | none => Except.error (.numError "ParseInt" (String.mk ('-' :: cs)) errSyntaxMsg)
      | some m =>
        if m > 2 ^ (bits - 1) then
          Except.error (.numError "ParseInt" (String.mk ('-' :: cs)) errRangeMsg)
        else Except.ok (-(m : Int)) := rfl
  rw [h0, hp]

theorem parseInt_mk_pos (c : Char) (cs : List Char) (bits n : Nat)
    (h1 : c ≠ '-') (h2 : c ≠ '+') (hp : parseDigits (c :: cs) = some n) :
    parseInt (String.mk (c :: cs)) bits =
      if n ≥ 2 ^ (bits - 1) then
        Except.error (.numError "ParseInt" (String.mk (c :: cs)) errRangeMsg)
      else Except.ok (n : Int) := by
  simp only [parseInt]
  rw [if_neg h1, if_neg h2, hp]

theorem parseInt_formatInt (v : Int) (bits : Nat)
    (h1 : -(2 ^ (bits - 1) : Int) ≤ v) (h2 : v ≤ 2 ^ (bits - 1) - 1) :
    parseInt (formatInt v) bits = .ok v := by
  have hcast : ((2 ^ (bits - 1) : Nat) : Int) = (2 ^ (bits - 1) : Int) := by push_cast; rfl
  rw [← hcast] at h1 h2
  by_cases hv : v < 0
  · have hfmt : formatInt v = String.mk ('-' :: digits v.natAbs) := by
      rw [formatInt, if_pos hv]
    rw [hfmt, parseInt_mk_neg _ _ _ (parseDigits_digits v.natAbs)]
    rw [if_neg (by omega)]
    congr 1
    omega
  · have hfmt : formatInt v = String.mk (digits v.toNat) := by
      rw [formatInt, if_neg hv]
    obtain ⟨c, cs, hcons⟩ : ∃ c cs, digits v.toNat = c :: cs := by
      cases hd : digits v.toNat with
      | nil => exact absurd hd (digits_ne_nil _)
      | cons c cs => exact ⟨c, cs, rfl⟩
    obtain ⟨d, hd10, hcd⟩ := digits_mem v.toNat c (by rw [hcons]; simp)
    have hsign := digitChar_ne_sign d hd10
    have hp : parseDigits (c :: cs) = some v.toNat := by
      rw [← hcons]; exact parseDigits_digits v.toNat
    rw [hfmt, hcons, parseInt_mk_pos c cs bits v.toNat
      (by rw [hcd]; exact hsign.2) (by rw [hcd]; exact hsign.1) hp]
    rw [if_neg (by omega)]
    congr 1
    omega

theorem parseBool_formatBool : ∀ b, parseBool (formatBool b) = .ok b := by decide

/-! ## Zero-padded fixed-width fields of the RFC 3339 layout -/

theorem digitChar_zero : digitChar 0 = '0' := by decide

theorem digits_two (n : Nat) (h1 : 10 ≤ n) (h2 : n < 100) :
    digits n = [digitChar (n / 10), digitChar (n % 10)] := by
  rw [digits_ge n h1, digits_lt (n / 10) (by omega)]
  rfl

theorem digits_three (n : Nat) (h1 : 100 ≤ n) (h2 : n < 1000) :
    digits n = [digitChar (n / 100), digitChar (n / 10 % 10), digitChar (n % 10)] := by
  rw [digits_ge n (by omega), digits_two (n / 10) (by omega) (by omega)]
  have e1 : n / 10 / 10 = n / 100 := by omega
  have e2 : n / 10 % 10 = n / 10 % 10 := rfl
  rw [e1]
  rfl

theorem digits_four (n : Nat) (h1 : 1000 ≤ n) (h2 : n < 10000) :
    digits n = [digitChar (n / 1000), digitChar (n / 100 % 10),
      digitChar (n / 10 % 10), digitChar (n % 10)] := by
  rw [digits_ge n (by omega), digits_three (n / 10) (by omega) (by omega)]
  have e1 : n / 10 / 100 = n / 1000 := by omega
  have e2 : n / 10 / 10 % 10 = n / 100 % 10 := by omega
  rw [e1, e2]
  rfl

theorem pad2_eq (n : Nat) (h : n < 100) :
    pad2 n = [digitChar (n / 10), digitChar (n % 10)] := by
  by_cases h10 : n < 10
  · rw [pad2, padLeft, digits_lt n h10]
    have e0 : n / 10 = 0 := by omega
    have e1 : n % 10 = n := by omega
    rw [e0, e1, digitChar_zero]
    rfl
  · rw [pad2, padLeft, digits_two n (by omega) h]
    rfl

theorem pad4_eq (n : Nat) (h : n < 10000) :
    pad4 n = [digitChar (n / 1000), digitChar (n / 100 % 10),
      digitChar (n / 10 % 10), digitChar (n % 10)] := by
  by_cases hA : n < 10
  · rw [pad4, padLeft, digits_lt n hA]
    have e0 : n / 1000 = 0 := by omega
    have e1 : n / 100 % 10 = 0 := by omega
    have e2 : n / 10 % 10 = 0 := by omega
    have e3 : n % 10 = n := by omega
    rw [e0, e1, e2, e3, digitChar_zero]
    rfl
  · by_cases hB : n < 100
    · rw [pad4, padLeft, digits_two n (by omega) hB]
      have e0 : n / 1000 = 0 := by omega
      have e1 : n / 100 % 10 = 0 := by omega
      have e2 : n / 10 % 10 = n / 10 := by omega
      rw [e0, e1, e2, digitChar_zero]
      rfl
    · by_cases hC : n < 1000
      · rw [pad4, padLeft, digits_three n (by omega) hC]
        have e0 : n / 1000 = 0 := by omega
        have e1 : n / 100 % 10 = n / 100 := by omega
        rw [e0, e1, digitChar_zero]
        rfl
      · rw [pad4, padLeft, digits_four n (by omega) h]
        rfl

theorem parse2_digitChar (n lo hi : Nat) (h : n < 100) (hlo : lo ≤ n) (hhi : n ≤ hi) :
    parse2 (digitChar (n / 10)) (digitChar (n % 10)) lo hi = some n := by
  rw [parse2, digitVal_digitChar (n / 10) (by omega), digitVal_digitChar (n % 10) (by omega)]
  have e : 10 * (n / 10) + n % 10 = n := by omega
  simp only [e]
  rw [if_pos ⟨hlo, hhi⟩]

theorem parse4_digitChar (n lo hi : Nat) (h : n < 10000) (hlo : lo ≤ n) (hhi : n ≤ hi) :
    parse4 (digitChar (n / 1000)) (digitChar (n / 100 % 10))
      (digitChar (n / 10 % 10)) (digitChar (n % 10)) lo hi = some n := by
  rw [parse4, digitVal_digitChar (n / 1000) (by omega), digitVal_digitChar (n / 100 % 10) (by omega),
    digitVal_digitChar (n / 10 % 10) (by omega), digitVal_digitChar (n % 10) (by omega)]
  have e : 1000 * (n / 1000) + 100 * (n / 100 % 10) + 10 * (n / 10 % 10) + n % 10 = n := by omega
  simp only [e]
  rw [if_pos ⟨hlo, hhi⟩]

/-! ## RFC 3339 round trip at whole-second precision -/

theorem splitFraction_offsetChars (off : Int) :
    splitFraction (offsetChars off) = (0, offsetChars off) := by
  by_cases h0 : off = 0
  · simp [offsetChars, h0, splitFraction]
  · rw [offsetChars, if_neg h0]
    by_cases hneg : off < 0 <;> simp [hneg, splitFraction]

theorem daysIn_le (m y : Nat) : daysIn m y ≤ 31 := by
  unfold daysIn
  split_ifs <;> omega

theorem parseZone_offsetChars (off : Int) (h : off.natAbs ≤ 1439) :
    parseZone (offsetChars off) = some off := by
  by_cases h0 : off = 0
  · rw [h0]
    rfl
  · rw [offsetChars, if_neg h0]
    have hdiv : off.natAbs / 60 < 100 := by omega
    have hdivle : off.natAbs / 60 ≤ 23 := by omega
    have hmod : off.natAbs % 60 < 100 := by omega
    have hmodle : off.natAbs % 60 ≤ 59 := by omega
    rw [pad2_eq _ hdiv, pad2_eq _ hmod]
    by_cases hneg : off < 0
    · rw [if_pos hneg]
      show parseZone ['-', _, _, ':', _, _] = some off
      rw [parseZone]
      rw [if_pos ⟨Or.inr rfl, rfl⟩]
      rw [parse2_digitChar _ 0 23 hdiv (by omega) hdivle]
      rw [parse2_digitChar _ 0 59 hmod (by omega) hmodle]
      show some (if ('-' : Char) = '-' then
          -(((off.natAbs / 60 * 60 + off.natAbs % 60 : Nat) : Int))
        else ((off.natAbs / 60 * 60 + off.natAbs % 60 : Nat) : Int)) = some off
      rw [if_pos rfl]
      congr 1
      omega
    · rw [if_neg hneg]
      show parseZone ['+', _, _, ':', _, _] = some off
      rw [parseZone]
      rw [if_pos ⟨Or.inl rfl, rfl⟩]
      rw [parse2_digitChar _ 0 23 hdiv (by omega) hdivle]
      rw [parse2_digitChar _ 0 59 hmod (by omega) hmodle]
      show some (if ('+' : Char) = '-' then
          -(((off.natAbs / 60 * 60 + off.natAbs % 60 : Nat) : Int))
        else ((off.natAbs / 60 * 60 + off.natAbs % 60 : Nat) : Int)) = some off
      rw [if_neg (by decide)]
      congr 1
      omega

theorem goTimeParse_format (t : GoTime) (h : t.wf) :
    goTimeParseRFC3339 (goTimeFormatRFC3339 t) = some { t with nanos := 0 } := by
  obtain ⟨y, mo, dy, hr, mi, se, ns, off⟩ := t
  obtain ⟨hy0, hmo10, hmo20, hd10, hd20, hh0, hmi0, hse0, hns0, hoff0⟩ := h
  have hy : y ≤ 9999 := hy0
  have hmo1 : 1 ≤ mo := hmo10
  have hmo2 : mo ≤ 12 := hmo20
  have hd1 : 1 ≤ dy := hd10
  have hd2 : dy ≤ daysIn mo y := hd20
  have hh : hr ≤ 23 := hh0
  have hmi : mi ≤ 59 := hmi0
  have hse : se ≤ 59 := hse0
  have hoff : off.natAbs ≤ 1439 := hoff0
  have hdle : daysIn mo y ≤ 31 := daysIn_le mo y
  rw [goTimeFormatRFC3339, rfc3339Chars]
  rw [pad4_eq y (by omega), pad2_eq mo (by omega), pad2_eq dy (by omega),
    pad2_eq hr (by omega), pad2_eq mi (by omega), pad2_eq se (by omega)]
  simp only [List.cons_append, List.nil_append]
  simp only [goTimeParseRFC3339]
  rw [if_pos (by decide)]
  rw [parse4_digitChar y 0 9999 (by omega) (by omega) hy]
  rw [Option.some_bind]
  rw [parse2_digitChar mo 1 12 (by omega) hmo1 hmo2]
  rw [Option.some_bind]
  rw [parse2_digitChar dy 1 (daysIn mo y) (by omega) hd1 hd2]
  rw [Option.some_bind]
  rw [parse2_digitChar hr 0 23 (by omega) (by omega) hh]
  rw [Option.some_bind]
  rw [parse2_digitChar mi 0 59 (by omega) (by omega) hmi]
  rw [Option.some_bind]
  rw [parse2_digitChar se 0 59 (by omega) (by omega) hse]
  rw [Option.some_bind]
  rw [splitFraction_offsetChars off]
  rw [parseZone_offsetChars off hoff]
  rfl

/-! ## Typing of values and well-formedness side conditions -/

def kindOf : Scalar → Kind
  | .str _ => .str
  | .int w _ => .int w
  | .uint w _ => .uint w
  | .bool _ => .bool
  | .time _ => .time
  | .other kn _ => .unsupported kn

/-- Agreement between a field's static type and the value it holds, an
invariant every Go struct satisfies by construction. -/
def valueMatches : FieldType → Value → Prop
  | .scalar k, .scalar sc => kindOf sc = k
  | .slice k, .list es => ∀ sc ∈ es, kindOf sc = k
  | _, _ => False

instance : ∀ ft v, Decidable (valueMatches ft v) := fun ft v => by
  cases ft <;> cases v <;> (unfold valueMatches; infer_instance)

/-- Range invariants a Go value of the given kind always satisfies: a
signed value fits its declared bit width, an unsigned one likewise, a
time has calendar-valid components within the four-digit-year range. -/
def Scalar.wf : Scalar → Prop
  | .int w v => -(2 ^ (w - 1) : Int) ≤ v ∧ v ≤ 2 ^ (w - 1) - 1
  | .uint w v => v < 2 ^ w
  | .time t => t.wf
  | _ => True

instance : ∀ sc : Scalar, Decidable sc.wf := fun sc => by
  cases sc <;> (unfold Scalar.wf; infer_instance)

/-- Whole-second side condition: RFC 3339 encoding drops nanoseconds, so
only timestamps without a sub-second component survive a round trip. -/
def Scalar.whole : Scalar → Prop
  | .time t => t.nanos = 0
  | _ => True

instance : ∀ sc : Scalar, Decidable sc.whole := fun sc => by
  cases sc <;> (unfold Scalar.whole; infer_instance)

def supportedKind : Kind → Prop
  | .unsupported _ => False
  | _ => True

instance : ∀ k, Decidable (supportedKind k) := fun k => by
  cases k <;> (unfold supportedKind; infer_instance)

def supportedType : FieldType → Prop
  | .scalar k => supportedKind k
  | .slice k => supportedKind k

instance : ∀ ft, Decidable (supportedType ft) := fun ft => by
  cases ft <;> (unfold supportedType; infer_instance)

/-- Zero value reflect.New produces for each supported kind. -/
def zeroScalar : Kind → Scalar
  | .str => .str ""
  | .int w => .int w 0
  | .uint w => .uint w 0
  | .bool => .bool false
  | .time => .time zeroGoTime
  | .unsupported kn => .other kn true

def zeroValue : FieldType → Value
  | .scalar k => .scalar (zeroScalar k)
  | .slice _ => .list []

/-- The same record type with every field at its zero value: the fresh
destination a caller hands to Unmarshal. -/
def zeroRecord (flds : List (Field × Value)) : List (Field × Value) :=
  flds.map fun p => (p.1, zeroValue p.1.ftype)

/-- Resolved key on the encode path: tag name, or the whole declared name
lower-cased. -/
def encKey (f : Field) : String :=
  if (parseTag f.tag).1 = "" then stringsToLower f.name else (parseTag f.tag).1

/-- Resolved key on the decode path: tag name, or the declared name with
only its first character lower-cased. -/
def decKey (f : Field) : String :=
  if (parseTag f.tag).1 = "" then lowerFirst f.name else (parseTag f.tag).1

/-! ## Per-scalar codec round trip -/

theorem setFromString_toString (sc : Scalar) (hk : supportedKind (kindOf sc))
    (hwf : sc.wf) (hwhole : sc.whole) :
    ∃ s, toString sc = .ok s ∧ setFromString (kindOf sc) s = .ok sc := by
  cases sc with
  | str s => exact ⟨s, rfl, rfl⟩
  | int w v =>
    obtain ⟨h1, h2⟩ : -(2 ^ (w - 1) : Int) ≤ v ∧ v ≤ 2 ^ (w - 1) - 1 := hwf
    refine ⟨formatInt v, rfl, ?_⟩
    show (match parseInt (formatInt v) w with
      | .ok v' => Except.ok (Scalar.int w v')
      | .error e => Except.error e) = Except.ok (Scalar.int w v)
    rw [parseInt_formatInt v w h1 h2]
  | uint w v =>
    have h : v < 2 ^ w := hwf
    refine ⟨formatUint v, rfl, ?_⟩
    show (match parseUint (formatUint v) w with
      | .ok v' => Except.ok (Scalar.uint w v')
      | .error e => Except.error e) = Except.ok (Scalar.uint w v)
    rw [parseUint_formatUint v w h]
  | bool b =>
    refine ⟨formatBool b, rfl, ?_⟩
    show (match parseBool (formatBool b) with
      | .ok b' => Except.ok (Scalar.bool b')
      | .error e => Except.error e) = Except.ok (Scalar.bool b)
    rw [parseBool_formatBool b]
  | time t =>
    have hw : t.wf := hwf
    have hn : t.nanos = 0 := hwhole
    refine ⟨goTimeFormatRFC3339 t, rfl, ?_⟩
    show (match goTimeParseRFC3339 (goTimeFormatRFC3339 t) with
      | some t' => Except.ok (Scalar.time t')
      | none => Except.error (GoError.timeParseError (goTimeFormatRFC3339 t))) =
      Except.ok (Scalar.time t)
    rw [goTimeParse_format t hw]
    have ht : { t with nanos := 0 } = t := by
      obtain ⟨y, mo, dy, hr, mi, se, ns, off⟩ := t
      simp only at hn
      rw [hn]
    rw [ht]
  | other kn z => exact absurd hk (by simp [kindOf, supportedKind])

/-! ## Values lemmas -/

theorem Values.get_set_self (uv : Values) (k v : String) : (uv.set k v) k = [v] := by
  simp [Values.set]

theorem Values.get_set_ne (uv : Values) (k v k' : String) (h : k' ≠ k) :
    (uv.set k v) k' = uv k' := by
  simp [Values.set, h]

theorem Values.get_add_self (uv : Values) (k v : String) : (uv.add k v) k = uv k ++ [v] := by
  simp [Values.add]

theorem Values.get_add_ne (uv : Values) (k v k' : String) (h : k' ≠ k) :
    (uv.add k v) k' = uv k' := by
  simp [Values.add, h]

/-! ## Characterizations of the per-field encode step -/

theorem marshalField_dash (f : Field) (val : Value) (uv : Values)
    (h : (parseTag f.tag).1 = "-") : marshalField f val uv = (uv, none) := by
  simp [marshalField, h]

theorem marshalField_unexported (f : Field) (val : Value) (uv : Values)
    (h1 : (parseTag f.tag).1 ≠ "-") (h2 : f.exported = false) :
    marshalField f val uv = (uv, none) := by
  simp [marshalField, h1, h2]

theorem marshalField_omitzero (f : Field) (val : Value) (uv : Values)
    (h1 : (parseTag f.tag).1 ≠ "-") (h2 : f.exported = true)
    (h3 : (parseTag f.tag).2 = true) (h4 : val.isZero = true) :
    marshalField f val uv = (uv, none) := by
  simp [marshalField, h1, h2, h3, h4]

theorem marshalField_scalar (f : Field) (sc : Scalar) (uv : Values) (s : String)
    (h1 : (parseTag f.tag).1 ≠ "-") (h2 : f.exported = true)
    (h3 : ((parseTag f.tag).2 && (Value.scalar sc).isZero) = false)
    (hts : toString sc = .ok s) :
    marshalField f (.scalar sc) uv = (uv.set (encKey f) s, none) := by
  simp [marshalField, h1, h2, h3, hts, encKey]

theorem marshalField_scalar_err (f : Field) (sc : Scalar) (uv : Values) (e : GoError)
    (h1 : (parseTag f.tag).1 ≠ "-") (h2 : f.exported = true)
    (h3 : ((parseTag f.tag).2 && (Value.scalar sc).isZero) = false)
    (hts : toString sc = .error e) :
    marshalField f (.scalar sc) uv = (uv, some e) := by
  simp [marshalField, h1, h2, h3, hts]

theorem marshalField_list (f : Field) (es : List Scalar) (uv : Values)
    (h1 : (parseTag f.tag).1 ≠ "-") (h2 : f.exported = true)
    (h3 : ((parseTag f.tag).2 && (Value.list es).isZero) = false) :
    marshalField f (.list es) uv = addAll (encKey f) es uv := by
  simp [marshalField, h1, h2, h3, encKey]

/-- Encoding a list whose elements all convert appends their strings, in
order, to whatever the key already holds; other keys are untouched. -/
theorem addAll_ok (nm : String) : ∀ (es : List Scalar) (ss : List String) (uv : Values),
    es.mapM toString = .ok ss →
    addAll nm es uv = (fun k => if k = nm then uv nm ++ ss else uv k, none) := by
  intro es
  induction es with
  | nil =>
    intro ss uv h
    simp only [List.mapM_nil, pure, Except.pure] at h
    obtain rfl : ([] : List String) = ss := Except.ok.inj h
    rw [addAll]
    refine Prod.ext ?_ rfl
    funext k
    by_cases hk : k = nm <;> simp [hk]
  | cons e es ih =>
    intro ss uv h
    rw [List.mapM_cons] at h
    cases hts : toString e with
    | error er =>
      rw [hts] at h
      simp only [bind, Except.bind] at h
      exact absurd h (by simp)
    | ok s =>
      rw [hts] at h
      simp only [bind, Except.bind] at h
      cases hrest : List.mapM toString es with
      | error er =>
        rw [hrest] at h
        exact absurd h (by simp)
      | ok ss' =>
        rw [hrest] at h
        simp only [pure, Except.pure] at h
        obtain rfl : s :: ss' = ss := Except.ok.inj h
        simp only [addAll, hts]
        rw [ih ss' (uv.add nm s) hrest]
        refine Prod.ext ?_ rfl
        funext k
        by_cases hk : k = nm
        · subst hk
          simp [Values.add]
        · simp [Values.add, hk]

/-- A list element failing to convert aborts the element loop, keeping
the entries already added for the earlier elements. -/
theorem addAll_err (nm : String) : ∀ (pre : List Scalar) (bad : Scalar) (post : List Scalar)
    (ss : List String) (e : GoError) (uv : Values),
    pre.mapM toString = .ok ss → toString bad = .error e →
    addAll nm (pre ++ bad :: post) uv =
      (fun k => if k = nm then uv nm ++ ss else uv k, some e) := by
  intro pre
  induction pre with
  | nil =>
    intro bad post ss e uv hok hbad
    simp only [List.mapM_nil, pure, Except.pure] at hok
    obtain rfl : ([] : List String) = ss := Except.ok.inj hok
    rw [List.nil_append]
    simp only [addAll, hbad]
    refine Prod.ext ?_ rfl
    funext k
    by_cases hk : k = nm <;> simp [hk]
  | cons p ps ih =>
    intro bad post ss e uv hok hbad
    rw [List.mapM_cons] at hok
    cases hts : toString p with
    | error er =>
      rw [hts] at hok
      simp only [bind, Except.bind] at hok
      exact absurd hok (by simp)
    | ok s =>
      rw [hts] at hok
      simp only [bind, Except.bind] at hok
      cases hrest : List.mapM toString ps with
      | error er =>
        rw [hrest] at hok
        exact absurd hok (by simp)
      | ok ss' =>
        rw [hrest] at hok
        simp only [pure, Except.pure] at hok
        obtain rfl : s :: ss' = ss := Except.ok.inj hok
        rw [List.cons_append]
        simp only [addAll, hts]
        rw [ih bad post ss' e (uv.add nm s) hrest hbad]
        refine Prod.ext ?_ rfl
        funext k
        by_cases hk : k = nm
        · subst hk
          simp [Values.add]
        · simp [Values.add, hk]

/-! ## Loop structure lemmas -/

theorem marshalLoop_append : ∀ (xs ys : List (Field × Value)) (uv : Values),
    marshalLoop (xs ++ ys) uv =
      match marshalLoop xs uv with
      | (uv', some e) => (uv', some e)
      | (uv', none) => marshalLoop ys uv' := by
  intro xs
  induction xs with
  | nil => intro ys uv; rfl
  | cons p xs ih =>
    intro ys uv
    obtain ⟨f, v⟩ := p
    rw [List.cons_append, marshalLoop, marshalLoop]
    cases hmf : marshalField f v uv with
    | mk uv' oe =>
      cases oe with
      | none => exact ih ys uv'
      | some e => rfl

theorem unmarshalLoop_append (vs : Values) : ∀ (xs ys : List (Field × Value)),
    unmarshalLoop vs (xs ++ ys) =
      match unmarshalLoop vs xs with
      | (xs', some e) => (xs' ++ ys, some e)
      | (xs', none) =>
        ((xs' ++ (unmarshalLoop vs ys).1, (unmarshalLoop vs ys).2) :
          List (Field × Value) × Option GoError) := by
  intro xs
  induction xs with
  | nil =>
    intro ys
    show unmarshalLoop vs ys = ([] ++ (unmarshalLoop vs ys).1, (unmarshalLoop vs ys).2)
    rw [List.nil_append]
  | cons p xs ih =>
    intro ys
    obtain ⟨f, v⟩ := p
    rw [List.cons_append, unmarshalLoop, unmarshalLoop]
    cases huf : unmarshalField vs f v with
    | mk v' oe =>
      cases oe with
      | some e => rfl
      | none =>
        simp only []
        rw [ih ys]
        cases hxs : unmarshalLoop vs xs with
        | mk xs' oe' =>
          cases oe' with
          | some e' => rfl
          | none => rfl

/-! ## Characterizations of the per-field decode step -/

theorem unmarshalField_dash (vs : Values) (f : Field) (val : Value)
    (h : (parseTag f.tag).1 = "-") : unmarshalField vs f val = (val, none) := by
  simp [unmarshalField, h]

theorem unmarshalField_absent (vs : Values) (f : Field) (val : Value)
    (h1 : (parseTag f.tag).1 ≠ "-") (h2 : vs (decKey f) = []) :
    unmarshalField vs f val = (val, none) := by
  simp only [unmarshalField, if_neg h1]
  rw [show (if (parseTag f.tag).1 = "" then lowerFirst f.name else (parseTag f.tag).1) =
    decKey f from rfl, h2]

theorem unmarshalField_unexported (vs : Values) (f : Field) (val : Value) (s : String)
    (rest : List String) (h1 : (parseTag f.tag).1 ≠ "-")
    (h2 : vs (decKey f) = s :: rest) (h3 : f.exported = false) :
    unmarshalField vs f val = (val, none) := by
  simp only [unmarshalField, if_neg h1]
  rw [show (if (parseTag f.tag).1 = "" then lowerFirst f.name else (parseTag f.tag).1) =
    decKey f from rfl, h2]
  simp [h3]

theorem unmarshalField_scalar_ok (vs : Values) (f : Field) (val : Value) (k : Kind)
    (s : String) (rest : List String) (sc : Scalar)
    (h1 : (parseTag f.tag).1 ≠ "-") (h2 : vs (decKey f) = s :: rest)
    (h3 : f.exported = true) (h4 : f.ftype = .scalar k)
    (h5 : setFromString k s = .ok sc) :
    unmarshalField vs f val = (.scalar sc, none) := by
  simp only [unmarshalField, if_neg h1]
  rw [show (if (parseTag f.tag).1 = "" then lowerFirst f.name else (parseTag f.tag).1) =
    decKey f from rfl, h2]
  simp [h3, h4, h5]

theorem unmarshalField_scalar_err (vs : Values) (f : Field) (val : Value) (k : Kind)
    (s : String) (rest : List String) (e : GoError)
    (h1 : (parseTag f.tag).1 ≠ "-") (h2 : vs (decKey f) = s :: rest)
    (h3 : f.exported = true) (h4 : f.ftype = .scalar k)
    (h5 : setFromString k s = .error e) :
    unmarshalField vs f val = (val, some (.fieldError (decKey f) e)) := by
  simp only [unmarshalField, if_neg h1]
  rw [show (if (parseTag f.tag).1 = "" then lowerFirst f.name else (parseTag f.tag).1) =
    decKey f from rfl, h2]
  simp [h3, h4, h5]

theorem unmarshalField_slice_ok (vs : Values) (f : Field) (val : Value) (k : Kind)
    (s : String) (rest : List String) (es : List Scalar)
    (h1 : (parseTag f.tag).1 ≠ "-") (h2 : vs (decKey f) = s :: rest)
    (h3 : f.exported = true) (h4 : f.ftype = .slice k)
    (h5 : decodeSlice k (s :: rest) = .ok es) :
    unmarshalField vs f val = (.list es, none) := by
  simp only [unmarshalField, if_neg h1]
  rw [show (if (parseTag f.tag).1 = "" then lowerFirst f.name else (parseTag f.tag).1) =
    decKey f from rfl, h2]
  simp [h3, h4, h5]

theorem unmarshalField_slice_err (vs : Values) (f : Field) (val : Value) (k : Kind)
    (s : String) (rest : List String) (e : GoError)
    (h1 : (parseTag f.tag).1 ≠ "-") (h2 : vs (decKey f) = s :: rest)
    (h3 : f.exported = true) (h4 : f.ftype = .slice k)
    (h5 : decodeSlice k (s :: rest) = .error e) :
    unmarshalField vs f val = (val, some (.fieldError (decKey f) e)) := by
  simp only [unmarshalField, if_neg h1]
  rw [show (if (parseTag f.tag).1 = "" then lowerFirst f.name else (parseTag f.tag).1) =
    decKey f from rfl, h2]
  simp [h3, h4, h5]

/-! ## Element decoding is an independent elementwise parse -/

theorem decodeSlice_mapM (k : Kind) : ∀ ss : List String,
    decodeSlice k ss = ss.mapM (setFromString k) := by
  intro ss
  induction ss with
  | nil => rfl
  | cons s ss ih =>
    rw [List.mapM_cons]
    cases hs : setFromString k s with
    | error e => simp [decodeSlice, hs, bind, Except.bind]
    | ok sc =>
      simp only [decodeSlice, hs, bind, Except.bind, ih]
      cases List.mapM (setFromString k) ss with
      | error e => rfl
      | ok scs => simp [pure, Except.pure]

/-- Well-formed supported elements encode successfully and the encoded
strings decode back to exactly the original elements. -/
theorem encode_decode_elems (k : Kind) (hsup : supportedKind k) :
    ∀ es : List Scalar, (∀ sc ∈ es, kindOf sc = k) → (∀ sc ∈ es, sc.wf ∧ sc.whole) →
    ∃ ss, es.mapM toString = .ok ss ∧ decodeSlice k ss = .ok es := by
  intro es
  induction es with
  | nil =>
    intro _ _
    exact ⟨[], rfl, rfl⟩
  | cons e es ih =>
    intro hkind hwf
    have hke : kindOf e = k := hkind e (by simp)
    have hwe : e.wf ∧ e.whole := hwf e (by simp)
    obtain ⟨s, hts, hsf⟩ :=
      setFromString_toString e (by rw [hke]; exact hsup) hwe.1 hwe.2
    obtain ⟨ss, hmapm, hdec⟩ := ih
      (fun sc h => hkind sc (by simp [h])) (fun sc h => hwf sc (by simp [h]))
    rw [hke] at hsf
    refine ⟨s :: ss, ?_, ?_⟩
    · rw [List.mapM_cons, hts]
      simp only [bind, Except.bind, hmapm, pure, Except.pure]
    · simp [decodeSlice, hsf, hdec]

/-! ## Conditions under which a field survives the round trip -/

def ValueOk : Value → Prop
  | .scalar sc => sc.wf ∧ sc.whole
  | .list es => ∀ sc ∈ es, sc.wf ∧ sc.whole

instance : ∀ v, Decidable (ValueOk v) := fun v => by
  cases v <;> (unfold ValueOk; infer_instance)

/-- One field's hypotheses for the amended round-trip statement: the value
matches the declared type and is in range, the kind is supported, the
field is accessible, it is not opted out, its two derived default keys
agree (automatic whenever a tag name is given), and it does not combine
omitzero with a zero value. -/
def FieldOk (p : Field × Value) : Prop :=
  valueMatches p.1.ftype p.2 ∧ ValueOk p.2 ∧ supportedType p.1.ftype ∧
  p.1.exported = true ∧ (parseTag p.1.tag).1 ≠ "-" ∧
  ((parseTag p.1.tag).1 = "" → stringsToLower p.1.name = lowerFirst p.1.name) ∧
  ((parseTag p.1.tag).2 = true → p.2.isZero = false)

instance : ∀ p, Decidable (FieldOk p) := fun p => by
  unfold FieldOk; infer_instance

theorem encKey_eq_decKey (f : Field)
    (h : (parseTag f.tag).1 = "" → stringsToLower f.name = lowerFirst f.name) :
    encKey f = decKey f := by
  unfold encKey decKey
  by_cases h0 : (parseTag f.tag).1 = ""
  · rw [if_pos h0, if_pos h0, h h0]
  · rw [if_neg h0, if_neg h0]

/-! ## The round trip, generalized over the accumulated map -/

theorem marshalLoop_roundtrip : ∀ (flds : List (Field × Value)) (uv : Values),
    (∀ p ∈ flds, FieldOk p) →
    (flds.map fun p => encKey p.1).Nodup →
    (∀ p ∈ flds, uv (encKey p.1) = []) →
    (marshalLoop flds uv).2 = none ∧
    (∀ k, (∀ p ∈ flds, encKey p.1 ≠ k) → (marshalLoop flds uv).1 k = uv k) ∧
    unmarshalLoop (marshalLoop flds uv).1 (zeroRecord flds) = (flds, none) := by
  intro flds
  induction flds with
  | nil =>
    intro uv _ _ _
    exact ⟨rfl, fun _ _ => rfl, rfl⟩
  | cons p rest ih =>
    intro uv hall hnodup hclean
    obtain ⟨f, val⟩ := p
    obtain ⟨hmatch, hvok, hsup, hexp, hdash, hkeys, homit⟩ := hall (f, val) (by simp)
    have hkey : encKey f = decKey f := encKey_eq_decKey f hkeys
    rw [List.map_cons, List.nodup_cons] at hnodup
    obtain ⟨hnotmem, hnodup'⟩ := hnodup
    have hne : ∀ q ∈ rest, encKey q.1 ≠ encKey f := by
      intro q hq heq
      exact hnotmem (heq ▸ List.mem_map_of_mem (fun r => encKey r.1) hq)
    have hb : ((parseTag f.tag).2 && val.isZero) = false := by
      cases hoz : (parseTag f.tag).2 with
      | false => rfl
      | true => simp [homit hoz]
    have hall' : ∀ q ∈ rest, FieldOk q := fun q hq => hall q (by simp [hq])
    have hcleanTail : ∀ q ∈ rest, uv (encKey q.1) = [] :=
      fun q hq => hclean q (by simp [hq])
    have hzrec : zeroRecord ((f, val) :: rest) =
        (f, zeroValue f.ftype) :: zeroRecord rest := by
      simp [zeroRecord]
    cases val with
    | scalar sc =>
      cases hft : f.ftype with
      | slice k =>
        rw [hft] at hmatch
        exact (hmatch : False).elim
      | scalar k =>
        rw [hft] at hmatch
        have hksc : kindOf sc = k := hmatch
        have hwe : sc.wf ∧ sc.whole := hvok
        have hsupk : supportedKind (kindOf sc) := by
          rw [hksc]
          have h2 := hsup
          rw [hft] at h2
          exact h2
        obtain ⟨s, hts, hsf⟩ := setFromString_toString sc hsupk hwe.1 hwe.2
        rw [hksc] at hsf
        have hstep : marshalLoop ((f, Value.scalar sc) :: rest) uv =
            marshalLoop rest (uv.set (encKey f) s) := by
          simp only [marshalLoop, marshalField_scalar f sc uv s hdash hexp hb hts]
        have hclean' : ∀ q ∈ rest, (uv.set (encKey f) s) (encKey q.1) = [] := by
          intro q hq
          rw [Values.get_set_ne uv (encKey f) s (encKey q.1) (hne q hq)]
          exact hcleanTail q hq
        obtain ⟨herr, hpres, hunm⟩ := ih (uv.set (encKey f) s) hall' hnodup' hclean'
        rw [hstep, hzrec]
        refine ⟨herr, ?_, ?_⟩
        · intro k' hk'
          rw [hpres k' (fun q hq => hk' q (by simp [hq]))]
          exact Values.get_set_ne uv (encKey f) s k'
            (fun h => (hk' (f, Value.scalar sc) (by simp)) h.symm)
        · have hmv : (marshalLoop rest (uv.set (encKey f) s)).1 (decKey f) = [s] := by
            rw [← hkey, hpres (encKey f) hne, Values.get_set_self]
          have hufield : unmarshalField (marshalLoop rest (uv.set (encKey f) s)).1 f
              (zeroValue f.ftype) = (Value.scalar sc, none) :=
            unmarshalField_scalar_ok _ f _ k s [] sc hdash hmv hexp hft hsf
          simp only [unmarshalLoop, hufield, hunm]
    | list es =>
      cases hft : f.ftype with
      | scalar k =>
        rw [hft] at hmatch
        exact (hmatch : False).elim
      | slice k =>
        rw [hft] at hmatch
        have hkind : ∀ sc ∈ es, kindOf sc = k := hmatch
        have hwf : ∀ sc ∈ es, sc.wf ∧ sc.whole := hvok
        have hsupk : supportedKind k := by
          have := hsup
          rw [hft] at this
          exact this
        obtain ⟨ss, hmapm, hdec⟩ := encode_decode_elems k hsupk es hkind hwf
        have hstep : marshalLoop ((f, Value.list es) :: rest) uv =
            marshalLoop rest (fun k' => if k' = encKey f then uv (encKey f) ++ ss else uv k') := by
          simp only [marshalLoop, marshalField_list f es uv hdash hexp hb,
            addAll_ok (encKey f) es ss uv hmapm]
        have hclean' : ∀ q ∈ rest,
            (fun k' => if k' = encKey f then uv (encKey f) ++ ss else uv k') (encKey q.1) = [] := by
          intro q hq
          simp only [if_neg (hne q hq)]
          exact hcleanTail q hq
        obtain ⟨herr, hpres, hunm⟩ :=
          ih (fun k' => if k' = encKey f then uv (encKey f) ++ ss else uv k')
            hall' hnodup' hclean'
        rw [hstep, hzrec]
        refine ⟨herr, ?_, ?_⟩
        · intro k' hk'
          rw [hpres k' (fun q hq => hk' q (by simp [hq]))]
          rw [if_neg (fun h : k' = encKey f => (hk' (f, Value.list es) (by simp)) h.symm)]
        · have hmv : (marshalLoop rest
              (fun k' => if k' = encKey f then uv (encKey f) ++ ss else uv k')).1 (decKey f) = ss := by
            rw [← hkey, hpres (encKey f) hne]
            simp only [if_pos rfl]
            rw [hclean (f, Value.list es) (by simp)]
            rfl
          cases hss : ss with
          | nil =>
            subst hss
            have hes : es = [] := by
              rw [show decodeSlice k [] = Except.ok [] from rfl] at hdec
              exact (Except.ok.inj hdec).symm
            subst hes
            have hzv : zeroValue f.ftype = Value.list [] := by
              rw [hft]
              rfl
            have hufield : unmarshalField (marshalLoop rest
                (fun k' => if k' = encKey f then uv (encKey f) ++ [] else uv k')).1 f
                (Value.list []) = (Value.list [], none) := by
              rw [← hzv]
              apply unmarshalField_absent _ f _ hdash
              rw [hmv]
            simp only [unmarshalLoop, hzv, hufield, hunm]
          | cons s0 ss' =>
            rw [← hss]
            rw [hss] at hdec
            have hmv2 : (marshalLoop rest
                (fun k' => if k' = encKey f then uv (encKey f) ++ ss else uv k')).1 (decKey f) =
                s0 :: ss' := hmv.trans hss
            have hufield : unmarshalField (marshalLoop rest
                (fun k' => if k' = encKey f then uv (encKey f) ++ ss else uv k')).1 f
                (zeroValue f.ftype) = (Value.list es, none) :=
              unmarshalField_slice_ok _ f _ k s0 ss' es hdash hmv2 hexp hft hdec
            simp only [unmarshalLoop, hufield, hunm]

/-! ## Claim theorems -/

/-- C2: for a field whose tag yields an empty name, Marshal writes its
value under the fully lower-cased declared name, while Unmarshal reads
the key obtained by lower-casing only the first character of the
declared name: encoding a single untagged string field lands under
stringsToLower of the name, and decoding picks the value up from the
lowerFirst key. -/
theorem C2_default_key_asymmetry (nm tag v : String) (_hnm : nm ≠ "")
    (htag : (parseTag tag).1 = "") (hv : v ≠ "") :
    (Marshal [(⟨nm, tag, .scalar .str, true⟩, .scalar (.str v))]).2 = none ∧
    (Marshal [(⟨nm, tag, .scalar .str, true⟩, .scalar (.str v))]).1 (stringsToLower nm) = [v] ∧
    Unmarshal (Values.set Values.empty (lowerFirst nm) v)
      [(⟨nm, tag, .scalar .str, true⟩, .scalar (.str ""))] =
      ([(⟨nm, tag, .scalar .str, true⟩, .scalar (.str v))], none) := by
  have hdash : (parseTag (⟨nm, tag, FieldType.scalar .str, true⟩ : Field).tag).1 ≠ "-" := by
    show (parseTag tag).1 ≠ "-"
    rw [htag]
    simp
  have hz : (Value.scalar (.str v)).isZero = false := by
    simp [Value.isZero, Scalar.isZero, hv]
  have hb : ((parseTag (⟨nm, tag, FieldType.scalar .str, true⟩ : Field).tag).2 &&
      (Value.scalar (.str v)).isZero) = false := by
    rw [hz, Bool.and_false]
  have hkeyeq : encKey ⟨nm, tag, .scalar .str, true⟩ = stringsToLower nm := by
    show (if (parseTag tag).1 = "" then stringsToLower nm else (parseTag tag).1) =
      stringsToLower nm
    rw [if_pos htag]
  have hdk : decKey ⟨nm, tag, .scalar .str, true⟩ = lowerFirst nm := by
    show (if (parseTag tag).1 = "" then lowerFirst nm else (parseTag tag).1) = lowerFirst nm
    rw [if_pos htag]
  have hstep : Marshal [(⟨nm, tag, .scalar .str, true⟩, .scalar (.str v))] =
      (Values.set Values.empty (encKey ⟨nm, tag, .scalar .str, true⟩) v, none) := by
    simp only [Marshal, marshalLoop,
      marshalField_scalar ⟨nm, tag, .scalar .str, true⟩ (.str v) Values.empty v hdash rfl hb rfl]
  refine ⟨by rw [hstep], ?_, ?_⟩
  · rw [hstep, hkeyeq]
    exact Values.get_set_self Values.empty (stringsToLower nm) v
  · have hvs : (Values.set Values.empty (lowerFirst nm) v)
        (decKey ⟨nm, tag, .scalar .str, true⟩) = v :: [] := by
      rw [hdk]
      exact Values.get_set_self Values.empty (lowerFirst nm) v
    have hu := unmarshalField_scalar_ok (Values.set Values.empty (lowerFirst nm) v)
      ⟨nm, tag, .scalar .str, true⟩ (.scalar (.str "")) .str v [] (.str v) hdash hvs rfl rfl rfl
    simp only [Unmarshal, unmarshalLoop, hu]

/-- C2 witness: the untagged field FooBar with value x encodes under
foobar and decodes from fooBar. -/
theorem C2_default_key_asymmetry_witness :
    (Marshal [(⟨"FooBar", "", .scalar .str, true⟩, .scalar (.str "x"))]).2 = none ∧
    (Marshal [(⟨"FooBar", "", .scalar .str, true⟩, .scalar (.str "x"))]).1
      (stringsToLower "FooBar") = ["x"] ∧
    Unmarshal (Values.set Values.empty (lowerFirst "FooBar") "x")
      [(⟨"FooBar", "", .scalar .str, true⟩, .scalar (.str ""))] =
      ([(⟨"FooBar", "", .scalar .str, true⟩, .scalar (.str "x"))], none) :=
  C2_default_key_asymmetry "FooBar" "" "x" (by decide) (by decide) (by decide)

/-- C7: a field whose tag name is the dash produces no Marshal output
(the whole result is as if the field were absent) and is ignored by
Unmarshal (its value is kept verbatim and the rest of the record decodes
exactly as without it), for every input map, including maps that do
contain its declared or derived name as a key. -/
theorem C7_dash_skip (f : Field) (val : Value) (vs : Values)
    (pre post rest : List (Field × Value))
    (h : (parseTag f.tag).1 = "-") :
    Marshal (pre ++ (f, val) :: post) = Marshal (pre ++ post) ∧
    Unmarshal vs ((f, val) :: rest) =
      ((f, val) :: (Unmarshal vs rest).1, (Unmarshal vs rest).2) := by
  constructor
  · rw [Marshal, Marshal, marshalLoop_append, marshalLoop_append]
    cases hm : marshalLoop pre Values.empty with
    | mk uv0 oe =>
      cases oe with
      | some e => rfl
      | none =>
        simp only [marshalLoop, marshalField_dash f val uv0 h]
  · simp only [Unmarshal, unmarshalLoop, unmarshalField_dash vs f val h]

/-- C7 witness: a dash-tagged string field holding s3 contributes nothing
to the encoding of a two-field record, and decoding a map that binds
both the declared name and its lower-cased form leaves the field
untouched. -/
theorem C7_dash_skip_witness :
    Marshal ([(⟨"A", "a", .scalar .str, true⟩, .scalar (.str "x"))] ++
        (⟨"Secret", "-", .scalar .str, true⟩, .scalar (.str "s3")) ::
        [(⟨"B", "b", .scalar .str, true⟩, .scalar (.str "y"))]) =
      Marshal ([(⟨"A", "a", .scalar .str, true⟩, .scalar (.str "x"))] ++
        [(⟨"B", "b", .scalar .str, true⟩, .scalar (.str "y"))]) ∧
    Unmarshal ((Values.empty.set "Secret" "oops").set "secret" "oops2")
        ((⟨"Secret", "-", .scalar .str, true⟩, .scalar (.str "s3")) ::
          [(⟨"B", "b", .scalar .str, true⟩, .scalar (.str "y"))]) =
      ((⟨"Secret", "-", .scalar .str, true⟩, .scalar (.str "s3")) ::
        (Unmarshal ((Values.empty.set "Secret" "oops").set "secret" "oops2")
          [(⟨"B", "b", .scalar .str, true⟩, .scalar (.str "y"))]).1,
       (Unmarshal ((Values.empty.set "Secret" "oops").set "secret" "oops2")
          [(⟨"B", "b", .scalar .str, true⟩, .scalar (.str "y"))]).2) :=
  C7_dash_skip ⟨"Secret", "-", .scalar .str, true⟩ (.scalar (.str "s3"))
    ((Values.empty.set "Secret" "oops").set "secret" "oops2")
    [(⟨"A", "a", .scalar .str, true⟩, .scalar (.str "x"))]
    [(⟨"B", "b", .scalar .str, true⟩, .scalar (.str "y"))]
    [(⟨"B", "b", .scalar .str, true⟩, .scalar (.str "y"))]
    (by decide)

/-- C9: appending a scalar field to any record whose encoding succeeded
leaves exactly its single encoded value under its resolved key,
replacing whatever entries any earlier field had put there: the
last-listed scalar field with a colliding key wins. -/
theorem C9_scalar_overwrite (flds : List (Field × Value)) (f : Field) (sc : Scalar)
    (s : String)
    (hdash : (parseTag f.tag).1 ≠ "-") (hexp : f.exported = true)
    (hb : ((parseTag f.tag).2 && (Value.scalar sc).isZero) = false)
    (hts : toString sc = .ok s)
    (hpre : (Marshal flds).2 = none) :
    (Marshal (flds ++ [(f, .scalar sc)])).2 = none ∧
    (Marshal (flds ++ [(f, .scalar sc)])).1 (encKey f) = [s] := by
  rw [Marshal, marshalLoop_append]
  cases hm : marshalLoop flds Values.empty with
  | mk uv0 oe =>
    cases oe with
    | some e =>
      rw [Marshal, hm] at hpre
      exact absurd hpre (by simp)
    | none =>
      have hone : marshalLoop [(f, Value.scalar sc)] uv0 = (uv0.set (encKey f) s, none) := by
        simp only [marshalLoop, marshalField_scalar f sc uv0 s hdash hexp hb hts]
      simp only [hone]
      exact ⟨trivial, Values.get_set_self uv0 (encKey f) s⟩

/-- C9 witness: two scalar fields both resolving to the key k: the final
map holds only the second field's value. -/
theorem C9_scalar_overwrite_witness :
    (Marshal ([(⟨"A", "k", .scalar .str, true⟩, .scalar (.str "first"))] ++
      [(⟨"B", "k", .scalar .str, true⟩, .scalar (.str "second"))])).2 = none ∧
    (Marshal ([(⟨"A", "k", .scalar .str, true⟩, .scalar (.str "first"))] ++
      [(⟨"B", "k", .scalar .str, true⟩, .scalar (.str "second"))])).1
      (encKey ⟨"B", "k", .scalar .str, true⟩) = ["second"] :=
  C9_scalar_overwrite [(⟨"A", "k", .scalar .str, true⟩, .scalar (.str "first"))]
    ⟨"B", "k", .scalar .str, true⟩ (.str "second") "second"
    (by decide) rfl (by decide) rfl (by decide)

/-- C10: when the input map holds several values under a scalar field's
resolved key, Unmarshal decodes only the first of them into the field
and ignores the rest without error: the result does not depend on the
extra values at all. -/
theorem C10_scalar_first_value (vs : Values) (f : Field) (val : Value) (k : Kind)
    (s : String) (extra : List String) (sc : Scalar) (rest : List (Field × Value))
    (hdash : (parseTag f.tag).1 ≠ "-") (hexp : f.exported = true)
    (hft : f.ftype = .scalar k)
    (hvs : vs (decKey f) = s :: extra)
    (hparse : setFromString k s = .ok sc) :
    Unmarshal vs ((f, val) :: rest) =
      ((f, .scalar sc) :: (Unmarshal vs rest).1, (Unmarshal vs rest).2) := by
  have hu := unmarshalField_scalar_ok vs f val k s extra sc hdash hvs hexp hft hparse
  simp only [Unmarshal, unmarshalLoop, hu]

/-- C10 witness: the key n holding the three values 7, 8, 9 decodes the
integer field to 7 with no error. -/
theorem C10_scalar_first_value_witness :
    Unmarshal ((Values.empty.add "n" "7").add "n" "8" |>.add "n" "9")
      [(⟨"N", "n", .scalar (.int 64), true⟩, .scalar (.int 64 0))] =
      ((⟨"N", "n", .scalar (.int 64), true⟩, Value.scalar (.int 64 7)) ::
        (Unmarshal ((Values.empty.add "n" "7").add "n" "8" |>.add "n" "9")
          ([] : List (Field × Value))).1,
       (Unmarshal ((Values.empty.add "n" "7").add "n" "8" |>.add "n" "9")
          ([] : List (Field × Value))).2) :=
  C10_scalar_first_value ((Values.empty.add "n" "7").add "n" "8" |>.add "n" "9")
    ⟨"N", "n", .scalar (.int 64), true⟩ (.scalar (.int 64 0)) (.int 64)
    "7" ["8", "9"] (.int 64 7) [] (by decide) rfl rfl (by decide) (by decide)

/-- C4: the first conversion failure aborts Marshal: the result is
exactly the failing step's output on the map accumulated from the
earlier fields (including any entries the failing list field had already
added), together with that error; fields after the failing one
contribute nothing. -/
theorem C4_marshal_abort (pre post : List (Field × Value)) (f : Field) (val : Value)
    (uv' : Values) (e : GoError)
    (hpre : (marshalLoop pre Values.empty).2 = none)
    (hbad : marshalField f val (marshalLoop pre Values.empty).1 = (uv', some e)) :
    Marshal (pre ++ (f, val) :: post) = (uv', some e) := by
  rw [Marshal, marshalLoop_append]
  cases hm : marshalLoop pre Values.empty with
  | mk uv0 oe =>
    cases oe with
    | some e0 =>
      rw [hm] at hpre
      exact absurd hpre (by simp)
    | none =>
      rw [hm] at hbad
      simp only [marshalLoop, hbad]

/-- C4 witness: a record whose second field has an unsupported kind
(a map-typed field): Marshal returns the unsupported-type error with the
map holding only the first field's entry; the third field is not
encoded. -/
theorem C4_marshal_abort_witness :
    Marshal ([(⟨"Name", "name", .scalar .str, true⟩, .scalar (.str "x"))] ++
        (⟨"Extra", "extra", .scalar (.unsupported "map"), true⟩,
          Value.scalar (.other "map" false)) ::
        [(⟨"Count", "count", .scalar (.int 64), true⟩, .scalar (.int 64 3))]) =
      ((marshalLoop [(⟨"Name", "name", .scalar .str, true⟩, .scalar (.str "x"))]
          Values.empty).1,
        some (.unsupportedType "map")) ∧
    (Marshal ([(⟨"Name", "name", .scalar .str, true⟩, .scalar (.str "x"))] ++
        (⟨"Extra", "extra", .scalar (.unsupported "map"), true⟩,
          Value.scalar (.other "map" false)) ::
        [(⟨"Count", "count", .scalar (.int 64), true⟩, .scalar (.int 64 3))])).1
      "name" = ["x"] ∧
    (Marshal ([(⟨"Name", "name", .scalar .str, true⟩, .scalar (.str "x"))] ++
        (⟨"Extra", "extra", .scalar (.unsupported "map"), true⟩,
          Value.scalar (.other "map" false)) ::
        [(⟨"Count", "count", .scalar (.int 64), true⟩, .scalar (.int 64 3))])).1
      "count" = [] := by
  have h := C4_marshal_abort
    [(⟨"Name", "name", .scalar .str, true⟩, .scalar (.str "x"))]
    [(⟨"Count", "count", .scalar (.int 64), true⟩, .scalar (.int 64 3))]
    ⟨"Extra", "extra", .scalar (.unsupported "map"), true⟩
    (Value.scalar (.other "map" false))
    (marshalLoop [(⟨"Name", "name", .scalar .str, true⟩, .scalar (.str "x"))]
      Values.empty).1
    (.unsupportedType "map") rfl rfl
  refine ⟨h, ?_, ?_⟩
  · rw [h]
    decide
  · rw [h]
    decide

/-- C5: a malformed scalar value makes Unmarshal return the error wrapped
with that field's resolved key, the fields before the failing one keep
the values already decoded into them, and the failing field and all
later fields keep their prior values. -/
theorem C5_decode_error (vs : Values) (pre post : List (Field × Value)) (f : Field)
    (val : Value) (k : Kind) (s : String) (extra : List String) (e : GoError)
    (hpre : (unmarshalLoop vs pre).2 = none)
    (hdash : (parseTag f.tag).1 ≠ "-")
    (hvs : vs (decKey f) = s :: extra)
    (hexp : f.exported = true)
    (hft : f.ftype = .scalar k)
    (hparse : setFromString k s = .error e) :
    Unmarshal vs (pre ++ (f, val) :: post) =
      ((unmarshalLoop vs pre).1 ++ (f, val) :: post,
        some (.fieldError (decKey f) e)) := by
  rw [Unmarshal, unmarshalLoop_append]
  cases hm : unmarshalLoop vs pre with
  | mk pre' oe =>
    cases oe with
    | some e0 =>
      rw [hm] at hpre
      exact absurd hpre (by simp)
    | none =>
      have hu := unmarshalField_scalar_err vs f val k s extra e hdash hvs hexp hft hparse
      simp only [unmarshalLoop, hu, hm]

/-- C5 witness: decoding a=1 then n=abc into two integer fields: the
first field keeps the decoded 1, the error is the ParseInt syntax
failure wrapped with the key n, and the failing and later fields keep
their prior values. -/
theorem C5_decode_error_witness :
    Unmarshal ((Values.empty.set "a" "1").set "n" "abc")
        ([(⟨"A", "a", .scalar (.int 64), true⟩, .scalar (.int 64 0))] ++
          (⟨"N", "n", .scalar (.int 64), true⟩, Value.scalar (.int 64 0)) ::
          [(⟨"B", "b", .scalar (.int 64), true⟩, .scalar (.int 64 0))]) =
      ((unmarshalLoop ((Values.empty.set "a" "1").set "n" "abc")
          [(⟨"A", "a", .scalar (.int 64), true⟩, .scalar (.int 64 0))]).1 ++
        (⟨"N", "n", .scalar (.int 64), true⟩, Value.scalar (.int 64 0)) ::
        [(⟨"B", "b", .scalar (.int 64), true⟩, .scalar (.int 64 0))],
        some (.fieldError (decKey ⟨"N", "n", .scalar (.int 64), true⟩)
          (.numError "ParseInt" "abc" errSyntaxMsg))) ∧
    (unmarshalLoop ((Values.empty.set "a" "1").set "n" "abc")
        [(⟨"A", "a", .scalar (.int 64), true⟩, .scalar (.int 64 0))]).1 =
      [(⟨"A", "a", .scalar (.int 64), true⟩, Value.scalar (.int 64 1))] := by
  refine ⟨C5_decode_error ((Values.empty.set "a" "1").set "n" "abc")
    [(⟨"A", "a", .scalar (.int 64), true⟩, .scalar (.int 64 0))]
    [(⟨"B", "b", .scalar (.int 64), true⟩, .scalar (.int 64 0))]
    ⟨"N", "n", .scalar (.int 64), true⟩ (Value.scalar (.int 64 0)) (.int 64)
    "abc" [] (.numError "ParseInt" "abc" errSyntaxMsg)
    (by decide) (by decide) (by decide) rfl rfl (by decide), by decide⟩

/-- C6: a list field encodes to one entry per element appended in element
order under its resolved key (other keys untouched), and a list field
decodes an ordered value sequence by parsing each string independently
in input order into a fresh list that replaces the field's prior value
entirely, whatever that prior value was. -/
theorem C6_list_fields (f : Field) (es : List Scalar) (ss : List String) (k : Kind)
    (hdash : (parseTag f.tag).1 ≠ "-") (hexp : f.exported = true)
    (hb : ((parseTag f.tag).2 && (Value.list es).isZero) = false)
    (henc : es.mapM toString = .ok ss) :
    (∀ uv : Values, marshalField f (.list es) uv =
      (fun k' => if k' = encKey f then uv (encKey f) ++ ss else uv k', none)) ∧
    (Marshal [(f, .list es)]).1 (encKey f) = ss ∧
    (Marshal [(f, .list es)]).2 = none ∧
    (∀ (vs : Values) (oldVal : Value) (es' : List Scalar),
      f.ftype = .slice k →
      vs (decKey f) ≠ [] →
      (vs (decKey f)).mapM (setFromString k) = .ok es' →
      unmarshalField vs f oldVal = (.list es', none)) := by
  have henc' : ∀ uv : Values, marshalField f (.list es) uv =
      (fun k' => if k' = encKey f then uv (encKey f) ++ ss else uv k', none) := by
    intro uv
    rw [marshalField_list f es uv hdash hexp hb, addAll_ok (encKey f) es ss uv henc]
  have hsingle : Marshal [(f, Value.list es)] =
      (fun k' => if k' = encKey f then Values.empty (encKey f) ++ ss else Values.empty k',
        none) := by
    simp only [Marshal, marshalLoop, henc' Values.empty]
  refine ⟨henc', ?_, ?_, ?_⟩
  · rw [hsingle]
    simp [Values.empty]
  · rw [hsingle]
  · intro vs oldVal es' hft hne hdec
    cases hv : vs (decKey f) with
    | nil => exact absurd hv hne
    | cons s0 rest =>
      rw [hv] at hdec
      have hds : decodeSlice k (s0 :: rest) = .ok es' := by
        rw [decodeSlice_mapM k (s0 :: rest), hdec]
      exact unmarshalField_slice_ok vs f oldVal k s0 rest es' hdash hv hexp hft hds

/-- C6 witness: the int list 3, 1, 2 encodes to the three entries 3, 1, 2
in that order, and decoding them replaces a prior one-element list by
3, 1, 2 in input order. -/
theorem C6_list_fields_witness :
    (Marshal [(⟨"Tags", "tags", .slice (.int 64), true⟩,
        .list [.int 64 3, .int 64 1, .int 64 2])]).1
      (encKey ⟨"Tags", "tags", .slice (.int 64), true⟩) = ["3", "1", "2"] ∧
    (Marshal [(⟨"Tags", "tags", .slice (.int 64), true⟩,
        .list [.int 64 3, .int 64 1, .int 64 2])]).2 = none ∧
    unmarshalField (((Values.empty.add "tags" "3").add "tags" "1").add "tags" "2")
        ⟨"Tags", "tags", .slice (.int 64), true⟩ (.list [.int 64 9]) =
      (.list [.int 64 3, .int 64 1, .int 64 2], none) := by
  have h := C6_list_fields ⟨"Tags", "tags", .slice (.int 64), true⟩
    [.int 64 3, .int 64 1, .int 64 2] ["3", "1", "2"] (.int 64)
    (by decide) rfl (by decide) (by decide)
  exact ⟨h.2.1, h.2.2.1, h.2.2.2 (((Values.empty.add "tags" "3").add "tags" "1").add "tags" "2")
    (.list [.int 64 9]) [.int 64 3, .int 64 1, .int 64 2] rfl (by decide) (by decide)⟩

/-- C8: an omitzero field is dropped from the encoding when it holds its
zero value (the whole result is as if the field were absent, and a
single-field record encodes to the empty map), appears with its encoded
value when non-zero, and the option has no effect on Unmarshal: decoding
is unchanged when the field's tag options are replaced by any other
options with the same name part. -/
theorem C8_omitzero (f : Field) (val : Value) (rest : List (Field × Value))
    (hdash : (parseTag f.tag).1 ≠ "-") (hexp : f.exported = true)
    (hoz : (parseTag f.tag).2 = true) :
    (val.isZero = true → Marshal ((f, val) :: rest) = Marshal rest) ∧
    (val.isZero = true → ∀ k', (Marshal [(f, val)]).1 k' = []) ∧
    (∀ sc s, val = .scalar sc → val.isZero = false → toString sc = .ok s →
      (Marshal [(f, val)]).1 (encKey f) = [s] ∧ (Marshal [(f, val)]).2 = none) ∧
    (∀ (vs : Values) (tag' : String) (g : Field),
      g.name = f.name → g.ftype = f.ftype → g.exported = f.exported →
      g.tag = tag' → (parseTag tag').1 = (parseTag f.tag).1 →
      (Unmarshal vs ((f, val) :: rest)).1.map Prod.snd =
        (Unmarshal vs ((g, val) :: rest)).1.map Prod.snd ∧
      (Unmarshal vs ((f, val) :: rest)).2 = (Unmarshal vs ((g, val) :: rest)).2) := by
  refine ⟨?_, ?_, ?_, ?_⟩
  · intro hz
    rw [Marshal, Marshal]
    show marshalLoop ((f, val) :: rest) Values.empty = marshalLoop rest Values.empty
    simp only [marshalLoop, marshalField_omitzero f val Values.empty hdash hexp hoz hz]
  · intro hz k'
    have hone : Marshal [(f, val)] = (Values.empty, none) := by
      simp only [Marshal, marshalLoop, marshalField_omitzero f val Values.empty hdash hexp hoz hz]
    rw [hone]
    rfl
  · intro sc s hsc hz hts
    subst hsc
    have hb : ((parseTag f.tag).2 && (Value.scalar sc).isZero) = false := by
      rw [hz, Bool.and_false]
    have hone : Marshal [(f, Value.scalar sc)] =
        (Values.empty.set (encKey f) s, none) := by
      simp only [Marshal, marshalLoop, marshalField_scalar f sc Values.empty s hdash hexp hb hts]
    rw [hone]
    exact ⟨Values.get_set_self Values.empty (encKey f) s, rfl⟩
  · intro vs tag' g hn hf he ht hname
    have hfield : unmarshalField vs g val = unmarshalField vs f val := by
      simp only [unmarshalField]
      rw [hn, hf, he, ht, hname]
    rw [Unmarshal, Unmarshal]
    show (unmarshalLoop vs ((f, val) :: rest)).1.map Prod.snd =
        (unmarshalLoop vs ((g, val) :: rest)).1.map Prod.snd ∧
      (unmarshalLoop vs ((f, val) :: rest)).2 = (unmarshalLoop vs ((g, val) :: rest)).2
    simp only [unmarshalLoop, hfield]
    cases hu : unmarshalField vs f val with
    | mk v' oe =>
      cases oe with
      | some e => simp
      | none => simp

/-- C8 witness: the field Count tag count,omitzero at value 0 is absent
from the encoding, at value 5 it appears under count as 5, and decoding
count=9 gives the same decoded values whether the tag is
count,omitzero or plain count. -/
theorem C8_omitzero_witness :
    (Marshal [(⟨"Count", "count,omitzero", .scalar (.int 64), true⟩,
        .scalar (.int 64 0))]).1 "count" = [] ∧
    (Marshal [(⟨"Count", "count,omitzero", .scalar (.int 64), true⟩,
        .scalar (.int 64 5))]).1
      (encKey ⟨"Count", "count,omitzero", .scalar (.int 64), true⟩) = ["5"] ∧
    (Unmarshal (Values.empty.set "count" "9")
        [(⟨"Count", "count,omitzero", .scalar (.int 64), true⟩,
          .scalar (.int 64 0))]).1.map Prod.snd =
      (Unmarshal (Values.empty.set "count" "9")
        [(⟨"Count", "count", .scalar (.int 64), true⟩,
          .scalar (.int 64 0))]).1.map Prod.snd := by
  have h0 := C8_omitzero ⟨"Count", "count,omitzero", .scalar (.int 64), true⟩
    (.scalar (.int 64 0)) [] (by decide) rfl (by decide)
  have h5 := C8_omitzero ⟨"Count", "count,omitzero", .scalar (.int 64), true⟩
    (.scalar (.int 64 5)) [] (by decide) rfl (by decide)
  refine ⟨?_, ?_, ?_⟩
  · have hz : (Value.scalar (Scalar.int 64 0)).isZero = true := by decide
    have hk := h0.2.1 hz "count"
    exact hk
  · exact (h5.2.2.1 (.int 64 5) "5" rfl (by decide) (by decide)).1
  · exact (h0.2.2.2 (Values.empty.set "count" "9") "count"
      ⟨"Count", "count", .scalar (.int 64), true⟩ rfl rfl rfl rfl (by decide)).1

/-- C1 counterexample: the untagged integer field ID holding 7, a record
whose only field is of a supported kind and carries no omitzero tag,
does not round-trip: Marshal writes the key id (whole name lower-cased)
but Unmarshal looks up iD (only the first character lower-cased), finds
nothing, and leaves the fresh record at zero, which differs from the
original. -/
theorem C1_roundtrip_counterexample :
    (Marshal [(⟨"ID", "", .scalar (.int 64), true⟩, .scalar (.int 64 7))]).2 = none ∧
    Unmarshal (Marshal [(⟨"ID", "", .scalar (.int 64), true⟩, .scalar (.int 64 7))]).1
        (zeroRecord [(⟨"ID", "", .scalar (.int 64), true⟩, .scalar (.int 64 7))]) =
      ([(⟨"ID", "", .scalar (.int 64), true⟩, .scalar (.int 64 0))], none) ∧
    (([(⟨"ID", "", .scalar (.int 64), true⟩, Value.scalar (.int 64 0))] :
        List (Field × Value)) ≠
      [(⟨"ID", "", .scalar (.int 64), true⟩, Value.scalar (.int 64 7))]) := by
  decide

/-- C1 (amended): decoding the multi-map produced by Marshal into a fresh
zero record of the same type recovers the record field for field,
provided each field is accessible, not tagged with the dash, of a
supported kind with its value in the declared range, any timestamp
carries whole-second precision, the encode-side and decode-side default
keys agree for untagged fields (automatic whenever a tag name is given),
the resolved keys are pairwise distinct, and no omitzero field holds its
zero value. -/
theorem C1_roundtrip_amended (flds : List (Field × Value))
    (hok : ∀ p ∈ flds, FieldOk p)
    (hnodup : (flds.map fun p => encKey p.1).Nodup) :
    (Marshal flds).2 = none ∧
    Unmarshal (Marshal flds).1 (zeroRecord flds) = (flds, none) := by
  obtain ⟨h1, _, h3⟩ :=
    marshalLoop_roundtrip flds Values.empty hok hnodup (fun _ _ => rfl)
  exact ⟨h1, h3⟩

/-- C1 witness: a record with a string, an omitzero integer at a
non-zero value, an unsigned list, a boolean and a whole-second timestamp
round-trips through Marshal and Unmarshal. -/
theorem C1_roundtrip_amended_witness :
    (Marshal [(⟨"Name", "name", .scalar .str, true⟩, .scalar (.str "x")),
      (⟨"Count", "count,omitzero", .scalar (.int 64), true⟩, .scalar (.int 64 5)),
      (⟨"Tags", "tags", .slice (.uint 8), true⟩, .list [.uint 8 3, .uint 8 1, .uint 8 2]),
      (⟨"Flag", "flag", .scalar .bool, true⟩, .scalar (.bool true)),
      (⟨"When", "ts", .scalar .time, true⟩,
        .scalar (.time ⟨2024, 1, 2, 15, 4, 5, 0, 0⟩))]).2 = none ∧
    Unmarshal (Marshal [(⟨"Name", "name", .scalar .str, true⟩, .scalar (.str "x")),
        (⟨"Count", "count,omitzero", .scalar (.int 64), true⟩, .scalar (.int 64 5)),
        (⟨"Tags", "tags", .slice (.uint 8), true⟩, .list [.uint 8 3, .uint 8 1, .uint 8 2]),
        (⟨"Flag", "flag", .scalar .bool, true⟩, .scalar (.bool true)),
        (⟨"When", "ts", .scalar .time, true⟩,
          .scalar (.time ⟨2024, 1, 2, 15, 4, 5, 0, 0⟩))]).1
      (zeroRecord [(⟨"Name", "name", .scalar .str, true⟩, .scalar (.str "x")),
        (⟨"Count", "count,omitzero", .scalar (.int 64), true⟩, .scalar (.int 64 5)),
        (⟨"Tags", "tags", .slice (.uint 8), true⟩, .list [.uint 8 3, .uint 8 1, .uint 8 2]),
        (⟨"Flag", "flag", .scalar .bool, true⟩, .scalar (.bool true)),
        (⟨"When", "ts", .scalar .time, true⟩,
          .scalar (.time ⟨2024, 1, 2, 15, 4, 5, 0, 0⟩))]) =
      ([(⟨"Name", "name", .scalar .str, true⟩, .scalar (.str "x")),
        (⟨"Count", "count,omitzero", .scalar (.int 64), true⟩, .scalar (.int 64 5)),
        (⟨"Tags", "tags", .slice (.uint 8), true⟩, .list [.uint 8 3, .uint 8 1, .uint 8 2]),
        (⟨"Flag", "flag", .scalar .bool, true⟩, .scalar (.bool true)),
        (⟨"When", "ts", .scalar .time, true⟩,
          .scalar (.time ⟨2024, 1, 2, 15, 4, 5, 0, 0⟩))], none) :=
  C1_roundtrip_amended
    [(⟨"Name", "name", .scalar .str, true⟩, .scalar (.str "x")),
      (⟨"Count", "count,omitzero", .scalar (.int 64), true⟩, .scalar (.int 64 5)),
      (⟨"Tags", "tags", .slice (.uint 8), true⟩, .list [.uint 8 3, .uint 8 1, .uint 8 2]),
      (⟨"Flag", "flag", .scalar .bool, true⟩, .scalar (.bool true)),
      (⟨"When", "ts", .scalar .time, true⟩,
        .scalar (.time ⟨2024, 1, 2, 15, 4, 5, 0, 0⟩))]
    (by decide) (by decide)

/-- C3 counterexample: a timestamp carrying half a second encodes to
exactly the same RFC 3339 string as its whole-second truncation, with no
sub-second component in the output: the sub-second precision the value
carries is not kept in the encoded string. -/
theorem C3_subsecond_counterexample :
    toString (Scalar.time ⟨2024, 1, 2, 15, 4, 5, 500000000, 0⟩) =
      .ok "2024-01-02T15:04:05Z" ∧
    toString (Scalar.time ⟨2024, 1, 2, 15, 4, 5, 500000000, 0⟩) =
      toString (Scalar.time ⟨2024, 1, 2, 15, 4, 5, 0, 0⟩) ∧
    (⟨2024, 1, 2, 15, 4, 5, 500000000, 0⟩ : GoTime).nanos ≠ 0 := by
  decide

/-- C3 (amended): encoding a timestamp produces the RFC 3339 string with
its time zone offset at whole-second precision: the output is invariant
under erasing the nanosecond component (the layout has no
fractional-second element), and the strict RFC 3339 parser recovers from
it exactly the timestamp truncated to whole seconds, offset included. -/
theorem C3_format_amended (t : GoTime) (h : t.wf) :
    toString (Scalar.time t) = .ok (goTimeFormatRFC3339 t) ∧
    goTimeFormatRFC3339 t = goTimeFormatRFC3339 { t with nanos := 0 } ∧
    goTimeParseRFC3339 (goTimeFormatRFC3339 t) = some { t with nanos := 0 } := by
  refine ⟨rfl, ?_, goTimeParse_format t h⟩
  obtain ⟨y, mo, dy, hr, mi, se, ns, off⟩ := t
  rfl

/-- C3 witness: a timestamp with nanoseconds and a negative zone offset
formats independently of its nanoseconds and parses back truncated. -/
theorem C3_format_amended_witness :
    toString (Scalar.time ⟨2024, 6, 30, 23, 59, 58, 123456789, -330⟩) =
      .ok (goTimeFormatRFC3339 ⟨2024, 6, 30, 23, 59, 58, 123456789, -330⟩) ∧
    goTimeFormatRFC3339 ⟨2024, 6, 30, 23, 59, 58, 123456789, -330⟩ =
      goTimeFormatRFC3339 ⟨2024, 6, 30, 23, 59, 58, 0, -330⟩ ∧
    goTimeParseRFC3339 (goTimeFormatRFC3339 ⟨2024, 6, 30, 23, 59, 58, 123456789, -330⟩) =
      some ⟨2024, 6, 30, 23, 59, 58, 0, -330⟩ :=
  C3_format_amended ⟨2024, 6, 30, 23, 59, 58, 123456789, -330⟩ (by decide)

end QueryParams
